import Mathlib

/-!
Verification of the quantum_time_capsule repository: a shallow embedding of
its Python modules (pqc_module, aes_module, utils, capsule/api protocol logic,
storage listing) and proofs of the specification claims about them.

Python strings are modelled as `List Char` (sequences of unicode scalars,
compared by code point, exactly as Python compares them).  Python `bytes`
values are modelled as `List Nat` with every element below 256.  The external
`cryptography`-library primitives (RSA-OAEP, ECDSA, Fernet) are modelled as
executable symbolic operations that satisfy the library's documented
contracts; every function of the repository itself is translated line for
line from the source.
-/

set_option maxRecDepth 4000

abbrev Str := List Char

/-- Turn a Lean string literal into the `List Char` representation. -/
def str (s : String) : Str := s.data

/-- Python exceptions (and CLI early-return failures) observable in the core. -/
inductive PyErr where
  | emptyMessage
  | invalidDate
  | lockedUntil : Str → PyErr
  | signatureFailed
  | valueError
  | binasciiError
  | invalidToken
  | unicodeError
  deriving DecidableEq, Repr

/-! ## Base64 (Python `base64.b64encode` / `b64decode` and the urlsafe pair) -/

/-- The standard base64 alphabet (RFC 4648 §4), as used by `base64.b64encode`. -/
def stdAlphabet : List Char :=
  str "ABCDEFGHIJKLMNOPQRSTUVWXYZabcdefghijklmnopqrstuvwxyz0123456789+/"

/-- The urlsafe base64 alphabet (RFC 4648 §5), as used by `base64.urlsafe_b64encode`. -/
def urlAlphabet : List Char :=
  str "ABCDEFGHIJKLMNOPQRSTUVWXYZabcdefghijklmnopqrstuvwxyz0123456789-_"

/-- Character of a six-bit group under a given alphabet. -/
def b64CharOf (tbl : List Char) (n : Nat) : Char := tbl.getD (n % 64) 'A'

/-- Base64 encoding over an alphabet: 3-byte groups to 4 characters, with
`=` padding on a final short group.  Mirrors `binascii.b2a_base64`. -/
def encodeWith (tbl : List Char) : List Nat → Str
  | [] => []
  | [b0] => [b64CharOf tbl (b0 / 4), b64CharOf tbl (b0 % 4 * 16), '=', '=']
  | [b0, b1] =>
      [b64CharOf tbl (b0 / 4), b64CharOf tbl (b0 % 4 * 16 + b1 / 16),
       b64CharOf tbl (b1 % 16 * 4), '=']
  | b0 :: b1 :: b2 :: rest =>
      b64CharOf tbl (b0 / 4) :: b64CharOf tbl (b0 % 4 * 16 + b1 / 16) ::
      b64CharOf tbl (b1 % 16 * 4 + b2 / 64) :: b64CharOf tbl (b2 % 64) ::
      encodeWith tbl rest

/-- Python `base64.b64encode(bs).decode()` of the source. -/
def b64encode (bs : List Nat) : Str := encodeWith stdAlphabet bs

/-- Python `base64.urlsafe_b64encode(bs).decode()` of the source. -/
def urlsafe_b64encode (bs : List Nat) : Str := encodeWith urlAlphabet bs

/-- Index of a character in the standard base64 alphabet. -/
def b64Index (c : Char) : Option Nat := stdAlphabet.findIdx? (· == c)

/-- Decode cleaned base64 text four characters at a time.  `=` padding is
accepted only on the final quad; `none` models `binascii.Error`. -/
def b64decodeGroups : Str → Option (List Nat)
  | [] => some []
  | c1 :: c2 :: c3 :: c4 :: rest =>
    match b64Index c1, b64Index c2 with
    | some i1, some i2 =>
      if c3 = '=' then
        if c4 = '=' ∧ rest = [] then some [i1 * 4 + i2 / 16] else none
      else
        match b64Index c3 with
        | some i3 =>
          if c4 = '=' then
            if rest = [] then some [i1 * 4 + i2 / 16, i2 % 16 * 16 + i3 / 4] else none
          else
            match b64Index c4 with
            | some i4 =>
                (b64decodeGroups rest).map
                  ([i1 * 4 + i2 / 16, i2 % 16 * 16 + i3 / 4, i3 % 4 * 64 + i4] ++ ·)
            | none => none
        | none => none
    | _, _ => none
  | _ => none

/-- Python `base64.b64decode` (default `validate=False`): characters outside
the alphabet are discarded, then length must be a multiple of four, else
`binascii.Error` ("Incorrect padding") is raised. -/
def b64decode (s : Str) : Except PyErr (List Nat) :=
  let cleaned := s.filter (fun c => (b64Index c).isSome || c = '=')
  if cleaned.length % 4 ≠ 0 then .error .binasciiError
  else
    match b64decodeGroups cleaned with
    | some bs => .ok bs
    | none => .error .binasciiError

/-- The character translation performed by `base64.urlsafe_b64decode`. -/
def urlsafeTranslate (c : Char) : Char :=
  if c = '-' then '+' else if c = '_' then '/' else c

/-- Python `base64.urlsafe_b64decode`: translate `-`/`_` to `+`/`/` and decode
with the standard alphabet. -/
def urlsafe_b64decode (s : Str) : Except PyErr (List Nat) :=
  b64decode (s.map urlsafeTranslate)

/-! ## Dates and datetimes (Python `datetime.date` / `datetime.datetime`) -/

/-- A Python `datetime.date`: a calendar date with no time-of-day component. -/
structure Date where
  year : Nat
  month : Nat
  day : Nat
  deriving DecidableEq, Repr

/-- Gregorian leap-year rule, as implemented by `datetime`. -/
def leapYear (y : Nat) : Bool :=
  y % 4 = 0 && (y % 100 != 0 || y % 400 = 0)

/-- Days in a month, as validated by the `datetime.date` constructor. -/
def daysInMonth (y m : Nat) : Nat :=
  if m = 2 then (if leapYear y then 29 else 28)
  else if m = 4 ∨ m = 6 ∨ m = 9 ∨ m = 11 then 30
  else 31

/-- Numeric value of a decimal digit character. -/
def digitVal (c : Char) : Nat := c.toNat - 48

/-- Python `datetime.date.fromisoformat` on the `YYYY-MM-DD` format the
source uses throughout: exactly ten characters, two `-` separators, decimal
digits elsewhere, and a real calendar date (`ValueError`, i.e. `none`,
otherwise). -/
def fromisoformat (s : Str) : Option Date :=
  match s with
  | [y1, y2, y3, y4, s1, m1, m2, s2, d1, d2] =>
    if y1.isDigit && y2.isDigit && y3.isDigit && y4.isDigit && s1 == '-' &&
       m1.isDigit && m2.isDigit && s2 == '-' && d1.isDigit && d2.isDigit then
      let y := digitVal y1 * 1000 + digitVal y2 * 100 + digitVal y3 * 10 + digitVal y4
      let mo := digitVal m1 * 10 + digitVal m2
      let d := digitVal d1 * 10 + digitVal d2
      if 1 ≤ y ∧ 1 ≤ mo ∧ mo ≤ 12 ∧ 1 ≤ d ∧ d ≤ daysInMonth y mo then
        some ⟨y, mo, d⟩
      else none
    else none
  | _ => none

/-- Python `date` comparison `a <= b`: lexicographic on (year, month, day), exactly
Python's `date.__le__`. -/
def dateLe (a b : Date) : Prop :=
  a.year < b.year ∨ (a.year = b.year ∧
    (a.month < b.month ∨ (a.month = b.month ∧ a.day ≤ b.day)))

instance (a b : Date) : Decidable (dateLe a b) := by unfold dateLe; infer_instance

/-- Source `utils.is_unlocked`: parse the unlock date, compare `today >= unlock_date`,
and return `False` on `ValueError`.  `today` (Python reads the ambient clock
via `datetime.date.today()`) is passed explicitly. -/
def is_unlocked (unlock_date_str : Str) (today : Date) : Bool :=
  match fromisoformat unlock_date_str with
  | some unlock_date => decide (dateLe unlock_date today)
  | none => false

/-- Source `utils.validate_date`: `True` iff `date.fromisoformat` succeeds. -/
def validate_date (date_str : Str) : Bool :=
  (fromisoformat date_str).isSome

/-- A Python `datetime.datetime` (naive, as produced by `datetime.now()`). -/
structure DateTime where
  year : Nat
  month : Nat
  day : Nat
  hour : Nat
  minute : Nat
  second : Nat
  microsecond : Nat
  deriving DecidableEq, Repr

/-- Field ranges enforced by the `datetime` constructor. -/
def DateTime.Valid (t : DateTime) : Prop :=
  1 ≤ t.year ∧ t.year ≤ 9999 ∧ 1 ≤ t.month ∧ t.month ≤ 12 ∧ 1 ≤ t.day ∧
  t.day ≤ 31 ∧ t.hour ≤ 23 ∧ t.minute ≤ 59 ∧ t.second ≤ 59 ∧
  t.microsecond ≤ 999999

instance (t : DateTime) : Decidable t.Valid := by unfold DateTime.Valid; infer_instance

/-- Chronological (lexicographic) strict order on datetimes, Python's
`datetime.__lt__`. -/
def dtLt (a b : DateTime) : Prop :=
  a.year < b.year ∨ (a.year = b.year ∧ (a.month < b.month ∨ (a.month = b.month ∧
  (a.day < b.day ∨ (a.day = b.day ∧ (a.hour < b.hour ∨ (a.hour = b.hour ∧
  (a.minute < b.minute ∨ (a.minute = b.minute ∧ (a.second < b.second ∨
  (a.second = b.second ∧ a.microsecond < b.microsecond)))))))))))

instance (a b : DateTime) : Decidable (dtLt a b) := by unfold dtLt; infer_instance

/-- Zero-left-padded fixed-width decimal rendering (`%04d`-style), as used by
`datetime.isoformat` for every numeric field. -/
def padNum : Nat → Nat → Str
  | 0, _ => []
  | w + 1, n => padNum w (n / 10) ++ [Nat.digitChar (n % 10)]

/-- Python `datetime.isoformat()`: `YYYY-MM-DDTHH:MM:SS`, with `.ffffff` appended
exactly when the microsecond field is nonzero. -/
def DateTime.isoformat (t : DateTime) : Str :=
  padNum 4 t.year ++ str "-" ++ padNum 2 t.month ++ str "-" ++ padNum 2 t.day ++
  str "T" ++ padNum 2 t.hour ++ str ":" ++ padNum 2 t.minute ++ str ":" ++
  padNum 2 t.second ++
  (if t.microsecond = 0 then [] else str "." ++ padNum 6 t.microsecond)

/-- The character substitution of `utils.get_current_timestamp`'s
`.replace(':', '-')`. -/
def colonToDash (c : Char) : Char := if c = ':' then '-' else c

/-- Source `utils.get_current_timestamp`: `datetime.now().isoformat().replace(':', '-')`,
with the clock reading passed explicitly. -/
def get_current_timestamp (now : DateTime) : Str :=
  now.isoformat.map colonToDash

/-! ## Python string comparison (code-point lexicographic) -/

/-- Python's string `<`: lexicographic comparison by unicode code point. -/
def strLt : Str → Str → Bool
  | [], [] => false
  | [], _ :: _ => true
  | _ :: _, [] => false
  | a :: as, b :: bs =>
    if a.toNat < b.toNat then true
    else if b.toNat < a.toNat then false
    else strLt as bs

/-- Mixed-radix encoding of a datetime; on valid datetimes its order is the
chronological order. -/
def dtKey (t : DateTime) : Nat :=
  (((((t.year * 13 + t.month) * 32 + t.day) * 24 + t.hour) * 60 + t.minute) * 60 +
    t.second) * 1000000 + t.microsecond

/-! ## Python `sorted` on strings, and `storage_module.list_capsules` -/

/-- Ascending order relation: `a` at or before `b` (no Python `b < a`). -/
def pyLe (a b : Str) : Prop := strLt b a = false

/-- Insert into an ascending list, keeping it ascending. -/
def pyInsert (x : Str) : List Str → List Str
  | [] => [x]
  | y :: ys => if strLt x y then x :: y :: ys else y :: pyInsert x ys

/-- Python `sorted` on a list of strings: the ascending (code-point
lexicographic) reordering, modelled by insertion sort. -/
def pySorted : List Str → List Str
  | [] => []
  | x :: xs => pyInsert x (pySorted xs)

/-- Python `str.startswith`. -/
def startswith (p s : Str) : Bool := s.take p.length == p

/-- Python `str.endswith`. -/
def endswith (p s : Str) : Bool := s.drop (s.length - p.length) == p

/-- The slice `filename[8:-5]` used by `list_capsules` to strip the
`capsule_` and `.json` affixes. -/
def capsuleStem (filename : Str) : Str :=
  (filename.drop 8).take ((filename.drop 8).length - 5)

/-- Source `storage_module.list_capsules`, with the directory listing (Python
`os.listdir`) passed explicitly: keep names matching `capsule_*.json`, strip
the affixes, and return `sorted(...)` of the stems. -/
def list_capsules (dirListing : List Str) : List Str :=
  pySorted ((dirListing.filter
    (fun f => startswith (str "capsule_") f && endswith (str ".json") f)).map
      capsuleStem)

/-! ## The `cryptography`-library primitives, modelled symbolically

The repository delegates all actual cryptography to the `cryptography`
package (RSA-OAEP, ECDSA/SECP256R1, Fernet).  Those primitives are modelled
here as executable operations on byte lists satisfying the library's
documented contracts (encrypt/decrypt and sign/verify inverses, key and
token validation); key material is identified by an abstract keypair id. -/

/-- Self-delimiting encoding of a keypair id inside opaque key/ciphertext
byte blobs. -/
def unary (n : Nat) : List Nat := List.replicate n 1 ++ [0]

def parseUnary : List Nat → Option (Nat × List Nat)
  | [] => none
  | 0 :: rest => some (0, rest)
  | 1 :: rest => (parseUnary rest).map (fun p => (p.1 + 1, p.2))
  | _ => none

/-- Models the PEM serialization of a public key (an opaque, parseable blob
identifying the keypair). -/
def pubPemBytes (kp : Nat) : List Nat := 5 :: unary kp

/-- Models the PEM serialization of a private key. -/
def privPemBytes (kp : Nat) : List Nat := 6 :: unary kp

/-- Models `serialization.load_pem_public_key`: `ValueError` on bytes that
are not a public-key PEM. -/
def load_pem_public_key (bs : List Nat) : Except PyErr Nat :=
  match bs with
  | 5 :: rest =>
    match parseUnary rest with
    | some (kp, []) => .ok kp
    | _ => .error .valueError
  | _ => .error .valueError

/-- Models `serialization.load_pem_private_key`. -/
def load_pem_private_key (bs : List Nat) : Except PyErr Nat :=
  match bs with
  | 6 :: rest =>
    match parseUnary rest with
    | some (kp, []) => .ok kp
    | _ => .error .valueError
  | _ => .error .valueError

/-- Models RSA-OAEP encryption `pub.encrypt(m, OAEP(MGF1(SHA256), SHA256))`:
an opaque ciphertext from which the matching secret key recovers `m`. -/
def rsaOaepEncrypt (kp : Nat) (m : List Nat) : List Nat := 2 :: unary kp ++ m

/-- Models RSA-OAEP decryption: recovers the plaintext under the matching
keypair, `ValueError` (padding failure) otherwise. -/
def rsaOaepDecrypt (kp : Nat) (ct : List Nat) : Except PyErr (List Nat) :=
  match ct with
  | 2 :: rest =>
    match parseUnary rest with
    | some (kp', m) => if kp' = kp then .ok m else .error .valueError
    | none => .error .valueError
  | _ => .error .valueError

/-- Models ECDSA signing `sec.sign(data, ECDSA(SHA256))`. -/
def ecdsaSign (kp : Nat) (data : List Nat) : List Nat := 4 :: unary kp ++ data

/-- Models ECDSA verification as a boolean: true exactly when `sig` is a
signature of `data` under keypair `kp` (the `InvalidSignature` exception of
the library is what the source's `try/except` turns into `False`). -/
def ecdsaVerify (kp : Nat) (sig data : List Nat) : Bool :=
  match sig with
  | 4 :: rest =>
    match parseUnary rest with
    | some (kp', d) => kp' == kp && d == data
    | none => false
  | _ => false

/-- Models Python `str.encode()`: an injective byte encoding of the string
(three bytes per scalar), with `strDecode` as its exact inverse. -/
def strEncode : Str → List Nat
  | [] => []
  | c :: cs => c.toNat / 65536 :: c.toNat / 256 % 256 :: c.toNat % 256 :: strEncode cs

/-- Models Python `bytes.decode()`: `none` is a `UnicodeDecodeError`. -/
def strDecode : List Nat → Option Str
  | [] => some []
  | a :: b :: c :: rest =>
    let n := a * 65536 + b * 256 + c
    if _h : Nat.isValidChar n then (strDecode rest).map (Char.ofNat n :: ·)
    else none
  | _ => none

/-- Models `Fernet.__init__` (the source passes the key string's bytes): the
key must urlsafe-base64-decode to exactly 32 bytes, else
`ValueError("Fernet key must be 32 url-safe base64-encoded bytes.")`. -/
def fernetInit (key : Str) : Except PyErr (List Nat) :=
  match urlsafe_b64decode key with
  | .ok kb => if kb.length = 32 then .ok kb else .error .valueError
  | .error _ => .error .valueError

/-- Models `Fernet.encrypt`: an opaque authenticated token over the plaintext
bytes, bound to the key (0x80 is the real Fernet version byte). -/
def fernetEncrypt (kb pt : List Nat) : List Nat := 128 :: kb ++ pt

/-- Models `Fernet.decrypt`: recovers the plaintext exactly when the token
was produced under the same 32-byte key; `InvalidToken` otherwise. -/
def fernetDecrypt (kb tok : List Nat) : Except PyErr (List Nat) :=
  match tok with
  | 128 :: rest =>
    if rest.take 32 = kb then .ok (rest.drop 32) else .error .invalidToken
  | _ => .error .invalidToken

/-- Models `Fernet.generate_key()`: the urlsafe-base64 encoding, as bytes, of
32 fresh random bytes (`os.urandom(32)` passed explicitly). -/
def fernet_generate_key (secret : List Nat) : List Nat :=
  (urlsafe_b64encode secret).map Char.toNat

/-! ## `pqc_module` -/

/-- The four-field key bundle returned by `pqc_module.generate_keys`. -/
structure Keys where
  kem_public : Str
  kem_secret : Str
  sig_public : Str
  sig_secret : Str
  deriving DecidableEq, Repr

/-- Source `pqc_module.generate_keys`, with the two fresh keypair identities (RSA
for the KEM role, ECDSA for the signature role) passed explicitly: serialize
each key to PEM and base64-encode it. -/
def generate_keys (kemId sigId : Nat) : Keys :=
  { kem_public := b64encode (pubPemBytes kemId)
    kem_secret := b64encode (privPemBytes kemId)
    sig_public := b64encode (pubPemBytes sigId)
    sig_secret := b64encode (privPemBytes sigId) }

/-- Source `pqc_module.encapsulate_key`, with the fresh `os.urandom(32)` bytes
passed explicitly: decode and load the KEM public key, RSA-encrypt the fresh
shared secret, and return both base64-encoded. -/
def encapsulate_key (kem_public_b64 : Str) (shared_secret : List Nat) :
    Except PyErr (Str × Str) := do
  let kem_public_pem ← b64decode kem_public_b64
  let kp ← load_pem_public_key kem_public_pem
  let ciphertext := rsaOaepEncrypt kp shared_secret
  pure (b64encode ciphertext, b64encode shared_secret)

/-- Source `pqc_module.decapsulate_key`: decode and load the KEM private key,
RSA-decrypt the encapsulated ciphertext, and return the shared secret
base64-encoded. -/
def decapsulate_key (kem_secret_b64 ciphertext_b64 : Str) : Except PyErr Str := do
  let kem_secret_pem ← b64decode kem_secret_b64
  let kp ← load_pem_private_key kem_secret_pem
  let ciphertext ← b64decode ciphertext_b64
  let shared_secret ← rsaOaepDecrypt kp ciphertext
  pure (b64encode shared_secret)

/-- Source `pqc_module.sign_data`: decode and load the signing private key, ECDSA-sign
`data.encode()`, and return the signature base64-encoded. -/
def sign_data (data sig_secret_b64 : Str) : Except PyErr Str := do
  let sig_secret_pem ← b64decode sig_secret_b64
  let kp ← load_pem_private_key sig_secret_pem
  pure (b64encode (ecdsaSign kp (strEncode data)))

/-- Source `pqc_module.verify_signature`.  Faithful to the source: only the final
`.verify` call sits inside `try/except` (whose `except:` returns `False`);
the two base64 decodes and the PEM key load are before the `try` block, so
their exceptions propagate. -/
def verify_signature (data signature_b64 sig_public_b64 : Str) :
    Except PyErr Bool := do
  let sig_public_pem ← b64decode sig_public_b64
  let kp ← load_pem_public_key sig_public_pem
  let signature ← b64decode signature_b64
  pure (ecdsaVerify kp signature (strEncode data))

/-! ## `aes_module` -/

/-- Source `aes_module.generate_aes_key`:
`base64.urlsafe_b64encode(Fernet.generate_key()).decode()`.  Note that
`Fernet.generate_key()` is already a urlsafe-base64 byte string, so this
base64-encodes it a second time. -/
def generate_aes_key (secret : List Nat) : Str :=
  urlsafe_b64encode (fernet_generate_key secret)

/-- Source `aes_module.encrypt_message`: `Fernet(aes_key_b64.encode())`, encrypt
`message.encode()`, and urlsafe-base64-encode the token. -/
def encrypt_message (message aes_key_b64 : Str) : Except PyErr Str := do
  let kb ← fernetInit aes_key_b64
  let ciphertext := fernetEncrypt kb (strEncode message)
  pure (urlsafe_b64encode ciphertext)

/-- Source `aes_module.decrypt_message`: `Fernet(aes_key_b64.encode())`,
urlsafe-base64-decode the ciphertext, Fernet-decrypt, and decode the
plaintext bytes back to text. -/
def decrypt_message (ciphertext_b64 aes_key_b64 : Str) : Except PyErr Str := do
  let kb ← fernetInit aes_key_b64
  let ciphertext ← urlsafe_b64decode ciphertext_b64
  let plaintext ← fernetDecrypt kb ciphertext
  match strDecode plaintext with
  | some s => pure s
  | none => .error .unicodeError

/-! ## The capsule protocol (`capsule_main.py` / `api.py` shared logic) -/

/-- The five-field capsule record assembled at creation. -/
structure Capsule where
  timestamp : Str
  unlock_date : Str
  ciphertext : Str
  kem_ct : Str
  signature : Str
  deriving DecidableEq, Repr

/-- The canonical metadata f-string
`f"{timestamp}|{unlock_date}|{ciphertext}|{kem_ct}"` built at creation
(capsule_main.py line 72, api.py line 47) and recomputed from the stored
fields at decryption and verification (capsule_main.py lines 140 and 186,
api.py lines 107 and 142). -/
def canonicalMetadata (timestamp unlock_date ciphertext kem_ct : Str) : Str :=
  timestamp ++ str "|" ++ unlock_date ++ str "|" ++ ciphertext ++ str "|" ++ kem_ct

/-- The capsule-creation logic shared by `create_capsule_option`
(capsule_main.py lines 38-90) and `api_create_capsule` (api.py lines 27-65):
reject an empty message, reject an invalid unlock date, encapsulate a fresh
symmetric key, encrypt the message, read the clock, sign the canonical
metadata, and assemble the five-field capsule.  The ambient clock reading
(`datetime.now()`) and fresh random bytes (`os.urandom(32)`) are passed
explicitly. -/
def create_capsule (message unlock_date : Str) (keys : Keys) (now : DateTime)
    (shared_secret : List Nat) : Except PyErr Capsule := do
  if message = [] then throw .emptyMessage
  if ¬ validate_date unlock_date then throw .invalidDate
  let (kem_ct, aes_key) ← encapsulate_key keys.kem_public shared_secret
  let ciphertext ← encrypt_message message aes_key
  let timestamp := get_current_timestamp now
  let metadata := canonicalMetadata timestamp unlock_date ciphertext kem_ct
  let signature ← sign_data metadata keys.sig_secret
  pure { timestamp := timestamp, unlock_date := unlock_date,
         ciphertext := ciphertext, kem_ct := kem_ct, signature := signature }

/-- The decryption logic shared by `decrypt_capsule_option` (capsule_main.py
lines 134-157) and `api_decrypt_capsule` (api.py lines 104-121), abstracted
over the decapsulation and symmetric-decryption functions so that their
non-involvement in the failure paths is provable: time-lock gate first, then
signature verification over the recomputed metadata, then decapsulate and
decrypt. -/
def decrypt_capsule_with (decap decr : Str → Str → Except PyErr Str)
    (capsule : Capsule) (keys : Keys) (today : Date) : Except PyErr Str := do
  if ¬ is_unlocked capsule.unlock_date today then
    throw (.lockedUntil capsule.unlock_date)
  let metadata := canonicalMetadata capsule.timestamp capsule.unlock_date
    capsule.ciphertext capsule.kem_ct
  let ok ← verify_signature metadata capsule.signature keys.sig_public
  if ¬ ok then throw .signatureFailed
  let aes_key ← decap keys.kem_secret capsule.kem_ct
  let message ← decr capsule.ciphertext aes_key
  pure message

/-- The decryption logic with the source's actual `decapsulate_key` and
`decrypt_message`. -/
def decrypt_capsule (capsule : Capsule) (keys : Keys) (today : Date) :
    Except PyErr Str :=
  decrypt_capsule_with decapsulate_key decrypt_message capsule keys today

/-- The verification logic shared by `verify_capsule_option` (capsule_main.py
lines 178-191) and `api_verify_capsule` (api.py lines 123-149): recompute the
canonical metadata from the stored fields and verify the stored signature.
There is no time-lock check, no decapsulation and no decryption. -/
def verify_capsule (capsule : Capsule) (keys : Keys) : Except PyErr Bool :=
  verify_signature
    (canonicalMetadata capsule.timestamp capsule.unlock_date capsule.ciphertext
      capsule.kem_ct)
    capsule.signature keys.sig_public

/-- The capsule assembled by a successful creation under the bundle
`generate_keys kemId sigId`, clock reading `now` and fresh bytes `shared`. -/
def createdCapsule (message unlock_date : Str) (kemId sigId : Nat)
    (now : DateTime) (shared : List Nat) : Capsule :=
  { timestamp := get_current_timestamp now
    unlock_date := unlock_date
    ciphertext := urlsafe_b64encode (fernetEncrypt shared (strEncode message))
    kem_ct := b64encode (rsaOaepEncrypt kemId shared)
    signature := b64encode (ecdsaSign sigId (strEncode
      (canonicalMetadata (get_current_timestamp now) unlock_date
        (urlsafe_b64encode (fernetEncrypt shared (strEncode message)))
        (b64encode (rsaOaepEncrypt kemId shared))))) }

deriving instance DecidableEq for Except

/-! ## Theorems -/

/-! ### Base64 lemmas -/

theorem getD_mem {α : Type} (l : List α) (n : Nat) (d : α) (h : n < l.length) :
    l.getD n d ∈ l := by
  induction l generalizing n with
  | nil => simp at h
  | cons x xs ih =>
    cases n with
    | zero => simp [List.getD]
    | succ m =>
      simp only [List.getD_cons_succ]
      exact List.mem_cons_of_mem _ (ih m (by simpa using h))

theorem b64CharOf_mem (tbl : List Char) (h : tbl.length = 64) (n : Nat) :
    b64CharOf tbl n ∈ tbl :=
  getD_mem tbl (n % 64) 'A' (by rw [h]; omega)

theorem mem_encodeWith (tbl : List Char) (bs : List Nat) (c : Char)
    (h : tbl.length = 64) (hc : c ∈ encodeWith tbl bs) : c ∈ tbl ∨ c = '=' := by
  induction bs using encodeWith.induct tbl with
  | case1 => simp [encodeWith] at hc
  | case2 b0 =>
    simp only [encodeWith, List.mem_cons, List.not_mem_nil, or_false] at hc
    rcases hc with rfl | rfl | rfl | rfl
    · exact .inl (b64CharOf_mem tbl h _)
    · exact .inl (b64CharOf_mem tbl h _)
    · exact .inr rfl
    · exact .inr rfl
  | case3 b0 b1 =>
    simp only [encodeWith, List.mem_cons, List.not_mem_nil, or_false] at hc
    rcases hc with rfl | rfl | rfl | rfl
    · exact .inl (b64CharOf_mem tbl h _)
    · exact .inl (b64CharOf_mem tbl h _)
    · exact .inl (b64CharOf_mem tbl h _)
    · exact .inr rfl
  | case4 b0 b1 b2 rest ih =>
    simp only [encodeWith, List.mem_cons] at hc
    rcases hc with rfl | rfl | rfl | rfl | hmem
    · exact .inl (b64CharOf_mem tbl h _)
    · exact .inl (b64CharOf_mem tbl h _)
    · exact .inl (b64CharOf_mem tbl h _)
    · exact .inl (b64CharOf_mem tbl h _)
    · exact ih hmem

theorem stdAlphabet_length : stdAlphabet.length = 64 := by decide

theorem urlAlphabet_length : urlAlphabet.length = 64 := by decide

theorem b64Index_table : ∀ m, m < 64 → b64Index (stdAlphabet.getD m 'A') = some m := by
  decide

theorem b64Index_b64CharOf (n : Nat) :
    b64Index (b64CharOf stdAlphabet n) = some (n % 64) :=
  b64Index_table (n % 64) (Nat.mod_lt _ (by decide))

theorem std_getD_ne_pad : ∀ m, m < 64 → stdAlphabet.getD m 'A' ≠ '=' := by decide

theorem b64CharOf_std_ne_pad (n : Nat) : b64CharOf stdAlphabet n ≠ '=' :=
  std_getD_ne_pad (n % 64) (Nat.mod_lt _ (by decide))

theorem b64Index_isSome_of_mem_std : ∀ c ∈ stdAlphabet, (b64Index c).isSome := by decide

theorem encode_filter_keep (bs : List Nat) (c : Char)
    (hc : c ∈ encodeWith stdAlphabet bs) :
    ((b64Index c).isSome || c = '=') = true := by
  rcases mem_encodeWith stdAlphabet bs c stdAlphabet_length hc with hm | rfl
  · simp [b64Index_isSome_of_mem_std c hm]
  · simp

theorem encodeWith_length (tbl : List Char) (bs : List Nat) :
    (encodeWith tbl bs).length = 4 * ((bs.length + 2) / 3) := by
  induction bs using encodeWith.induct tbl with
  | case1 => simp [encodeWith]
  | case2 b0 => simp [encodeWith]
  | case3 b0 b1 => simp [encodeWith]
  | case4 b0 b1 b2 rest ih =>
    simp only [encodeWith, List.length_cons, ih]
    omega

theorem b64decodeGroups_encodeWith (bs : List Nat) (hb : ∀ b ∈ bs, b < 256) :
    b64decodeGroups (encodeWith stdAlphabet bs) = some bs := by
  induction bs using encodeWith.induct stdAlphabet with
  | case1 => simp [encodeWith, b64decodeGroups]
  | case2 b0 =>
    have h0 : b0 < 256 := hb b0 (by simp)
    simp only [encodeWith, b64decodeGroups, b64Index_b64CharOf]
    simp only [if_pos rfl, and_self, if_true, Option.some.injEq]
    have : b0 / 4 % 64 * 4 + b0 % 4 * 16 % 64 / 16 = b0 := by omega
    rw [this]
  | case3 b0 b1 =>
    have h0 : b0 < 256 := hb b0 (by simp)
    have h1 : b1 < 256 := hb b1 (by simp)
    simp only [encodeWith, b64decodeGroups, b64Index_b64CharOf]
    rw [if_neg (b64CharOf_std_ne_pad _)]
    simp only [b64Index_b64CharOf, if_pos rfl, if_true, Option.some.injEq]
    have e1 : b0 / 4 % 64 * 4 + (b0 % 4 * 16 + b1 / 16) % 64 / 16 = b0 := by omega
    have e2 : (b0 % 4 * 16 + b1 / 16) % 64 % 16 * 16 + b1 % 16 * 4 % 64 / 4 = b1 := by
      omega
    rw [e1, e2]
  | case4 b0 b1 b2 rest ih =>
    have h0 : b0 < 256 := hb b0 (by simp)
    have h1 : b1 < 256 := hb b1 (by simp)
    have h2 : b2 < 256 := hb b2 (by simp)
    have hrest : ∀ b ∈ rest, b < 256 := fun b hbr => hb b (by simp [hbr])
    simp only [encodeWith, b64decodeGroups, b64Index_b64CharOf]
    rw [if_neg (b64CharOf_std_ne_pad _), if_neg (b64CharOf_std_ne_pad _)]
    simp only [b64Index_b64CharOf, ih hrest, Option.map_some']
    have e1 : b0 / 4 % 64 * 4 + (b0 % 4 * 16 + b1 / 16) % 64 / 16 = b0 := by omega
    have e2 : (b0 % 4 * 16 + b1 / 16) % 64 % 16 * 16 +
        (b1 % 16 * 4 + b2 / 64) % 64 / 4 = b1 := by omega
    have e3 : (b1 % 16 * 4 + b2 / 64) % 64 % 4 * 64 + b2 % 64 % 64 = b2 := by omega
    rw [e1, e2, e3]
    rfl

theorem b64decode_b64encode (bs : List Nat) (hb : ∀ b ∈ bs, b < 256) :
    b64decode (b64encode bs) = .ok bs := by
  unfold b64decode b64encode
  rw [List.filter_eq_self.mpr (fun c hc => encode_filter_keep bs c hc)]
  rw [if_neg (by simp [encodeWith_length])]
  rw [b64decodeGroups_encodeWith bs hb]

theorem translate_url_table :
    ∀ m, m < 64 → urlsafeTranslate (urlAlphabet.getD m 'A') = stdAlphabet.getD m 'A' := by
  decide

theorem translate_std_table :
    ∀ m, m < 64 → urlsafeTranslate (stdAlphabet.getD m 'A') = stdAlphabet.getD m 'A' := by
  decide

theorem translate_b64CharOf_url (n : Nat) :
    urlsafeTranslate (b64CharOf urlAlphabet n) = b64CharOf stdAlphabet n :=
  translate_url_table (n % 64) (Nat.mod_lt _ (by decide))

theorem translate_b64CharOf_std (n : Nat) :
    urlsafeTranslate (b64CharOf stdAlphabet n) = b64CharOf stdAlphabet n :=
  translate_std_table (n % 64) (Nat.mod_lt _ (by decide))

theorem translate_pad : urlsafeTranslate '=' = '=' := by decide

theorem map_translate_encode_url (bs : List Nat) :
    (encodeWith urlAlphabet bs).map urlsafeTranslate = encodeWith stdAlphabet bs := by
  induction bs using encodeWith.induct urlAlphabet with
  | case1 => simp [encodeWith]
  | case2 b0 =>
    simp [encodeWith, translate_b64CharOf_url, translate_pad]
  | case3 b0 b1 =>
    simp [encodeWith, translate_b64CharOf_url, translate_pad]
  | case4 b0 b1 b2 rest ih =>
    simp [encodeWith, translate_b64CharOf_url, ih]

theorem map_translate_encode_std (bs : List Nat) :
    (encodeWith stdAlphabet bs).map urlsafeTranslate = encodeWith stdAlphabet bs := by
  induction bs using encodeWith.induct stdAlphabet with
  | case1 => simp [encodeWith]
  | case2 b0 =>
    simp [encodeWith, translate_b64CharOf_std, translate_pad]
  | case3 b0 b1 =>
    simp [encodeWith, translate_b64CharOf_std, translate_pad]
  | case4 b0 b1 b2 rest ih =>
    simp [encodeWith, translate_b64CharOf_std, ih]

theorem urlsafe_b64decode_urlsafe_b64encode (bs : List Nat) (hb : ∀ b ∈ bs, b < 256) :
    urlsafe_b64decode (urlsafe_b64encode bs) = .ok bs := by
  unfold urlsafe_b64decode urlsafe_b64encode
  rw [map_translate_encode_url]
  exact b64decode_b64encode bs hb

theorem urlsafe_b64decode_b64encode (bs : List Nat) (hb : ∀ b ∈ bs, b < 256) :
    urlsafe_b64decode (b64encode bs) = .ok bs := by
  unfold urlsafe_b64decode b64encode
  rw [map_translate_encode_std]
  exact b64decode_b64encode bs hb

theorem std_toNat_lt : ∀ c ∈ stdAlphabet, c.toNat < 256 := by decide

theorem url_toNat_lt : ∀ c ∈ urlAlphabet, c.toNat < 256 := by decide

theorem encodeWith_toNat_lt (tbl : List Char) (htbl : tbl.length = 64)
    (hc : ∀ c ∈ tbl, c.toNat < 256) (bs : List Nat) :
    ∀ c ∈ encodeWith tbl bs, c.toNat < 256 := by
  intro c hmem
  rcases mem_encodeWith tbl bs c htbl hmem with hm | rfl
  · exact hc c hm
  · decide

theorem strLt_irrefl (s : Str) : strLt s s = false := by
  induction s with
  | nil => rfl
  | cons c cs ih => simp [strLt, ih]

theorem strLt_asymm (a b : Str) (h : strLt a b = true) : strLt b a = false := by
  induction a generalizing b with
  | nil =>
    cases b with
    | nil => simp [strLt] at h
    | cons y ys => simp [strLt]
  | cons x xs ih =>
    cases b with
    | nil => simp [strLt] at h
    | cons y ys =>
      simp only [strLt] at h ⊢
      by_cases h1 : x.toNat < y.toNat
      · have h2 : ¬ y.toNat < x.toNat := by omega
        simp [h1, h2]
      · by_cases h2 : y.toNat < x.toNat
        · simp [h1, h2] at h
        · simp [h1, h2] at h ⊢
          exact ih ys h

theorem strLt_trans (a b c : Str) (hab : strLt a b = true)
    (hbc : strLt b c = true) : strLt a c = true := by
  induction a generalizing b c with
  | nil =>
    cases c with
    | nil =>
      cases b with
      | nil => simp [strLt] at hab
      | cons y ys => simp [strLt] at hbc
    | cons z zs => simp [strLt]
  | cons x xs ih =>
    cases b with
    | nil => simp [strLt] at hab
    | cons y ys =>
      cases c with
      | nil => simp [strLt] at hbc
      | cons z zs =>
        simp only [strLt] at hab hbc ⊢
        by_cases e1 : x.toNat < y.toNat <;> by_cases e3 : y.toNat < z.toNat <;>
          by_cases e5 : x.toNat < z.toNat <;> by_cases e2 : y.toNat < x.toNat <;>
          by_cases e4 : z.toNat < y.toNat <;> by_cases e6 : z.toNat < x.toNat <;>
          simp [e1, e2, e3, e4, e5, e6] at hab hbc ⊢ <;>
          first
            | omega
            | exact ih ys zs hab hbc

theorem strLt_append_same (u as bs : Str) :
    strLt (u ++ as) (u ++ bs) = strLt as bs := by
  induction u with
  | nil => rfl
  | cons c cs ih => simp [strLt, ih]

theorem strLt_cons_same (c : Char) (as bs : Str) :
    strLt (c :: as) (c :: bs) = strLt as bs := by
  simp [strLt]

theorem strLt_append_of_lt (as bs u v : Str) (h : strLt as bs = true)
    (hl : as.length = bs.length) : strLt (as ++ u) (bs ++ v) = true := by
  induction as generalizing bs with
  | nil =>
    cases bs with
    | nil => simp [strLt] at h
    | cons y ys => simp at hl
  | cons x xs ih =>
    cases bs with
    | nil => simp at hl
    | cons y ys =>
      simp only [List.cons_append, strLt] at h ⊢
      by_cases h1 : x.toNat < y.toNat
      · simp [h1]
      · by_cases h2 : y.toNat < x.toNat
        · simp [h1, h2] at h
        · simp [h1, h2] at h ⊢
          exact ih ys h (by simpa using hl)

/-! ### Decimal padding lemmas -/

theorem padNum_length (w n : Nat) : (padNum w n).length = w := by
  induction w generalizing n with
  | zero => rfl
  | succ k ih => simp [padNum, ih]

theorem colonToDash_digitChar : ∀ m, m < 10 → colonToDash (Nat.digitChar m) = Nat.digitChar m := by
  decide

theorem map_colonToDash_padNum (w n : Nat) :
    (padNum w n).map colonToDash = padNum w n := by
  induction w generalizing n with
  | zero => rfl
  | succ k ih =>
    simp [padNum, ih, colonToDash_digitChar (n % 10) (by omega)]

theorem strLt_digitChar :
    ∀ i, i < 10 → ∀ j, j < 10 → i < j → strLt [Nat.digitChar i] [Nat.digitChar j] = true := by
  decide

theorem strLt_padNum (w m n : Nat) (hmn : m < n) (hn : n < 10 ^ w) :
    strLt (padNum w m) (padNum w n) = true := by
  induction w generalizing m n with
  | zero => simp at hn; omega
  | succ k ih =>
    have hpow : 10 ^ (k + 1) = 10 * 10 ^ k := by ring
    have hpos : 1 ≤ 10 ^ k := Nat.one_le_pow _ _ (by norm_num)
    by_cases hdiv : m / 10 < n / 10
    · have hlt := ih (m / 10) (n / 10) hdiv (by omega)
      exact strLt_append_of_lt _ _ _ _ hlt (by simp [padNum_length])
    · have hdeq : m / 10 = n / 10 := by omega
      have hmod : m % 10 < n % 10 := by omega
      rw [padNum, padNum, hdeq, strLt_append_same]
      exact strLt_digitChar (m % 10) (by omega) (n % 10) (by omega) hmod

theorem colonToDash_dash : colonToDash '-' = '-' := rfl

theorem colonToDash_colon : colonToDash ':' = '-' := rfl

theorem colonToDash_T : colonToDash 'T' = 'T' := rfl

theorem colonToDash_dot : colonToDash '.' = '.' := rfl

theorem get_current_timestamp_eq (t : DateTime) :
    get_current_timestamp t =
      padNum 4 t.year ++ ['-'] ++ padNum 2 t.month ++ ['-'] ++ padNum 2 t.day ++
      ['T'] ++ padNum 2 t.hour ++ ['-'] ++ padNum 2 t.minute ++ ['-'] ++
      padNum 2 t.second ++
      (if t.microsecond = 0 then [] else ['.'] ++ padNum 6 t.microsecond) := by
  unfold get_current_timestamp DateTime.isoformat
  rw [show str "-" = ['-'] from rfl, show str "T" = ['T'] from rfl,
      show str ":" = [':'] from rfl, show str "." = ['.'] from rfl]
  simp only [List.map_append, map_colonToDash_padNum, apply_ite (List.map colonToDash),
    List.map_cons, List.map_nil, colonToDash_dash, colonToDash_colon, colonToDash_T,
    colonToDash_dot]

theorem strLt_timestamp_of_dtLt (a b : DateTime) (ha : a.Valid) (hb : b.Valid)
    (h : dtLt a b) :
    strLt (get_current_timestamp a) (get_current_timestamp b) = true := by
  obtain ⟨hay1, hay2, ham1, ham2, had1, had2, hah, hami, has, hau⟩ := ha
  obtain ⟨hby1, hby2, hbm1, hbm2, hbd1, hbd2, hbh, hbmi, hbs, hbu⟩ := hb
  have p4 : (10:Nat) ^ 4 = 10000 := by norm_num
  have p2 : (10:Nat) ^ 2 = 100 := by norm_num
  have p6 : (10:Nat) ^ 6 = 1000000 := by norm_num
  rw [get_current_timestamp_eq, get_current_timestamp_eq]
  simp only [List.append_assoc]
  rcases h with hy | ⟨hy, hmo | ⟨hmo, hd | ⟨hd, hh | ⟨hh, hmi | ⟨hmi, hs | ⟨hs, hu⟩⟩⟩⟩⟩⟩
  · exact strLt_append_of_lt _ _ _ _ (strLt_padNum 4 _ _ hy (by omega))
      (by simp [padNum_length])
  · rw [hy, strLt_append_same, strLt_append_same]
    exact strLt_append_of_lt _ _ _ _ (strLt_padNum 2 _ _ hmo (by omega))
      (by simp [padNum_length])
  · rw [hy, hmo, strLt_append_same, strLt_append_same, strLt_append_same,
      strLt_append_same]
    exact strLt_append_of_lt _ _ _ _ (strLt_padNum 2 _ _ hd (by omega))
      (by simp [padNum_length])
  · rw [hy, hmo, hd, strLt_append_same, strLt_append_same, strLt_append_same,
      strLt_append_same, strLt_append_same, strLt_append_same]
    exact strLt_append_of_lt _ _ _ _ (strLt_padNum 2 _ _ hh (by omega))
      (by simp [padNum_length])
  · rw [hy, hmo, hd, hh, strLt_append_same, strLt_append_same, strLt_append_same,
      strLt_append_same, strLt_append_same, strLt_append_same, strLt_append_same,
      strLt_append_same]
    exact strLt_append_of_lt _ _ _ _ (strLt_padNum 2 _ _ hmi (by omega))
      (by simp [padNum_length])
  · rw [hy, hmo, hd, hh, hmi, strLt_append_same, strLt_append_same,
      strLt_append_same, strLt_append_same, strLt_append_same, strLt_append_same,
      strLt_append_same, strLt_append_same, strLt_append_same, strLt_append_same]
    exact strLt_append_of_lt _ _ _ _ (strLt_padNum 2 _ _ hs (by omega))
      (by simp [padNum_length])
  · rw [hy, hmo, hd, hh, hmi, hs, strLt_append_same, strLt_append_same,
      strLt_append_same, strLt_append_same, strLt_append_same, strLt_append_same,
      strLt_append_same, strLt_append_same, strLt_append_same, strLt_append_same,
      strLt_append_same]
    have hb0 : ¬ b.microsecond = 0 := by omega
    rw [if_neg hb0]
    by_cases ha0 : a.microsecond = 0
    · rw [if_pos ha0]
      rfl
    · rw [if_neg ha0, strLt_append_same]
      exact strLt_padNum 6 _ _ hu (by omega)

theorem dtLt_iff_dtKey (a b : DateTime) (ha : a.Valid) (hb : b.Valid) :
    dtLt a b ↔ dtKey a < dtKey b := by
  obtain ⟨hay1, hay2, ham1, ham2, had1, had2, hah, hami, has, hau⟩ := ha
  obtain ⟨hby1, hby2, hbm1, hbm2, hbd1, hbd2, hbh, hbmi, hbs, hbu⟩ := hb
  unfold dtLt dtKey
  omega

theorem dt_eq_of_dtKey_eq (a b : DateTime) (ha : a.Valid) (hb : b.Valid)
    (h : dtKey a = dtKey b) : a = b := by
  obtain ⟨hay1, hay2, ham1, ham2, had1, had2, hah, hami, has, hau⟩ := ha
  obtain ⟨hby1, hby2, hbm1, hbm2, hbd1, hbd2, hbh, hbmi, hbs, hbu⟩ := hb
  unfold dtKey at h
  obtain ⟨ay, am, ad, ah, ami, asec, au⟩ := a
  obtain ⟨yy, ym, yd, yh, ymi, ysec, yu⟩ := b
  simp only [DateTime.mk.injEq]
  simp only at *
  omega

theorem strLt_timestamp_iff (a b : DateTime) (ha : a.Valid) (hb : b.Valid) :
    strLt (get_current_timestamp a) (get_current_timestamp b) = true ↔ dtLt a b := by
  constructor
  · intro h
    rcases Nat.lt_trichotomy (dtKey a) (dtKey b) with hk | hk | hk
    · exact (dtLt_iff_dtKey a b ha hb).mpr hk
    · have : a = b := dt_eq_of_dtKey_eq a b ha hb hk
      rw [this, strLt_irrefl] at h
      exact absurd h (by simp)
    · have hba : dtLt b a := (dtLt_iff_dtKey b a hb ha).mpr hk
      have := strLt_asymm _ _ (strLt_timestamp_of_dtLt b a hb ha hba)
      rw [this] at h
      exact absurd h (by simp)
  · exact strLt_timestamp_of_dtLt a b ha hb

theorem pyInsert_perm (x : Str) (l : List Str) : (pyInsert x l).Perm (x :: l) := by
  induction l with
  | nil => exact List.Perm.refl _
  | cons y ys ih =>
    unfold pyInsert
    by_cases hxy : strLt x y = true
    · rw [if_pos hxy]
    · rw [if_neg hxy]
      exact (List.Perm.cons y ih).trans (List.Perm.swap x y ys)

theorem pySorted_perm (l : List Str) : (pySorted l).Perm l := by
  induction l with
  | nil => exact List.Perm.refl _
  | cons x xs ih =>
    exact (pyInsert_perm x (pySorted xs)).trans (List.Perm.cons x ih)

theorem mem_pyInsert (z x : Str) (l : List Str) :
    z ∈ pyInsert x l ↔ z = x ∨ z ∈ l := by
  rw [(pyInsert_perm x l).mem_iff, List.mem_cons]

theorem pyInsert_pairwise (x : Str) (l : List Str) (hl : l.Pairwise pyLe) :
    (pyInsert x l).Pairwise pyLe := by
  induction l with
  | nil => simp [pyInsert, pyLe]
  | cons y ys ih =>
    rcases List.pairwise_cons.mp hl with ⟨hy, hys⟩
    unfold pyInsert
    by_cases hxy : strLt x y = true
    · rw [if_pos hxy]
      refine List.pairwise_cons.mpr ⟨?_, hl⟩
      intro z hz
      rcases List.mem_cons.mp hz with rfl | hz'
      · exact strLt_asymm _ _ hxy
      · show strLt z x = false
        cases hzc : strLt z x with
        | false => rfl
        | true =>
          have htr := strLt_trans z x y hzc hxy
          rw [hy z hz'] at htr
          exact absurd htr (by simp)
    · rw [if_neg hxy]
      refine List.pairwise_cons.mpr ⟨?_, ih hys⟩
      intro z hz
      rcases (mem_pyInsert z x ys).mp hz with rfl | hz'
      · show strLt z y = false
        cases hc : strLt z y with
        | false => rfl
        | true => exact absurd hc hxy
      · exact hy z hz'

theorem pySorted_pairwise (l : List Str) : (pySorted l).Pairwise pyLe := by
  induction l with
  | nil => simp [pySorted]
  | cons x xs ih => exact pyInsert_pairwise x (pySorted xs) ih

theorem parseUnary_unary (n : Nat) (rest : List Nat) :
    parseUnary (unary n ++ rest) = some (n, rest) := by
  induction n with
  | zero => rfl
  | succ k ih =>
    show parseUnary (1 :: (unary k ++ rest)) = some (k + 1, rest)
    simp [parseUnary, ih]

theorem char_toNat_lt (c : Char) : c.toNat < 1114112 := by
  rcases c.valid with h | ⟨h1, h2⟩
  · exact Nat.lt_trans h (by norm_num)
  · exact h2

theorem char_isValidChar (c : Char) : Nat.isValidChar c.toNat := by
  have := c.valid
  unfold UInt32.isValidChar at this
  exact this

theorem strDecode_strEncode (s : Str) : strDecode (strEncode s) = some s := by
  induction s with
  | nil => rfl
  | cons c cs ih =>
    have hlt := char_toNat_lt c
    have hval := char_isValidChar c
    have hn : c.toNat / 65536 * 65536 + c.toNat / 256 % 256 * 256 + c.toNat % 256 =
        c.toNat := by omega
    simp only [strEncode, strDecode, hn, dif_pos hval, ih, Option.map_some',
      Char.ofNat_toNat]

theorem strEncode_lt (s : Str) : ∀ b ∈ strEncode s, b < 256 := by
  induction s with
  | nil => simp [strEncode]
  | cons c cs ih =>
    intro b hb
    have hlt := char_toNat_lt c
    simp only [strEncode, List.mem_cons] at hb
    rcases hb with rfl | rfl | rfl | hb
    · omega
    · omega
    · omega
    · exact ih b hb

/-! ### Byte-range and round-trip lemmas for the pipeline -/

theorem unary_lt (n : Nat) : ∀ b ∈ unary n, b < 256 := by
  intro b hb
  simp only [unary, List.mem_append, List.mem_replicate, List.mem_singleton] at hb
  rcases hb with ⟨_, rfl⟩ | rfl <;> omega

theorem pubPemBytes_lt (kp : Nat) : ∀ b ∈ pubPemBytes kp, b < 256 := by
  intro b hb
  rcases List.mem_cons.mp hb with rfl | hb'
  · omega
  · exact unary_lt kp b hb'

theorem privPemBytes_lt (kp : Nat) : ∀ b ∈ privPemBytes kp, b < 256 := by
  intro b hb
  rcases List.mem_cons.mp hb with rfl | hb'
  · omega
  · exact unary_lt kp b hb'

theorem rsaOaepEncrypt_lt (kp : Nat) (m : List Nat) (hm : ∀ b ∈ m, b < 256) :
    ∀ b ∈ rsaOaepEncrypt kp m, b < 256 := by
  intro b hb
  rcases List.mem_cons.mp hb with rfl | hb'
  · omega
  · rcases List.mem_append.mp hb' with h | h
    · exact unary_lt kp b h
    · exact hm b h

theorem ecdsaSign_lt (kp : Nat) (d : List Nat) (hd : ∀ b ∈ d, b < 256) :
    ∀ b ∈ ecdsaSign kp d, b < 256 := by
  intro b hb
  rcases List.mem_cons.mp hb with rfl | hb'
  · omega
  · rcases List.mem_append.mp hb' with h | h
    · exact unary_lt kp b h
    · exact hd b h

theorem fernetEncrypt_lt (kb pt : List Nat) (hk : ∀ b ∈ kb, b < 256)
    (hp : ∀ b ∈ pt, b < 256) : ∀ b ∈ fernetEncrypt kb pt, b < 256 := by
  intro b hb
  rcases List.mem_cons.mp hb with rfl | hb'
  · omega
  · rcases List.mem_append.mp hb' with h | h
    · exact hk b h
    · exact hp b h

theorem load_pem_public_key_pubPemBytes (kp : Nat) :
    load_pem_public_key (pubPemBytes kp) = .ok kp := by
  have h := parseUnary_unary kp []
  rw [List.append_nil] at h
  simp [load_pem_public_key, pubPemBytes, h]

theorem load_pem_private_key_privPemBytes (kp : Nat) :
    load_pem_private_key (privPemBytes kp) = .ok kp := by
  have h := parseUnary_unary kp []
  rw [List.append_nil] at h
  simp [load_pem_private_key, privPemBytes, h]

theorem rsaOaepDecrypt_rsaOaepEncrypt (kp : Nat) (m : List Nat) :
    rsaOaepDecrypt kp (rsaOaepEncrypt kp m) = .ok m := by
  simp [rsaOaepDecrypt, rsaOaepEncrypt, parseUnary_unary]

theorem ecdsaVerify_ecdsaSign (kp : Nat) (d : List Nat) :
    ecdsaVerify kp (ecdsaSign kp d) d = true := by
  simp [ecdsaVerify, ecdsaSign, parseUnary_unary]

theorem fernetDecrypt_fernetEncrypt (kb pt : List Nat) (h : kb.length = 32) :
    fernetDecrypt kb (fernetEncrypt kb pt) = .ok pt := by
  have ht : (kb ++ pt).take 32 = kb := by rw [← h]; exact List.take_left kb pt
  have hd : (kb ++ pt).drop 32 = pt := by rw [← h]; exact List.drop_left kb pt
  simp [fernetDecrypt, fernetEncrypt, ht, hd]

theorem fernetInit_b64encode (kb : List Nat) (h : kb.length = 32)
    (hlt : ∀ b ∈ kb, b < 256) : fernetInit (b64encode kb) = .ok kb := by
  simp [fernetInit, urlsafe_b64decode_b64encode kb hlt, h]

theorem ok_bind {α β : Type} (v : α) (f : α → Except PyErr β) :
    (Except.ok v >>= f) = f v := rfl

theorem error_bind {α β : Type} (e : PyErr) (f : α → Except PyErr β) :
    ((Except.error e : Except PyErr α) >>= f) = .error e := rfl

theorem pure_except {α : Type} (v : α) : (pure v : Except PyErr α) = .ok v := rfl

theorem throw_except {α : Type} (e : PyErr) :
    (throw e : Except PyErr α) = .error e := rfl

theorem encapsulate_key_eq (kemId : Nat) (shared : List Nat) :
    encapsulate_key (b64encode (pubPemBytes kemId)) shared =
      .ok (b64encode (rsaOaepEncrypt kemId shared), b64encode shared) := by
  unfold encapsulate_key
  rw [b64decode_b64encode _ (pubPemBytes_lt kemId), ok_bind,
    load_pem_public_key_pubPemBytes, ok_bind]
  rfl

theorem sign_data_eq (d : Str) (sigId : Nat) :
    sign_data d (b64encode (privPemBytes sigId)) =
      .ok (b64encode (ecdsaSign sigId (strEncode d))) := by
  unfold sign_data
  rw [b64decode_b64encode _ (privPemBytes_lt sigId), ok_bind,
    load_pem_private_key_privPemBytes, ok_bind]
  rfl

theorem verify_signature_eq (d : Str) (sigId : Nat) (sigBytes : List Nat)
    (hsig : ∀ b ∈ sigBytes, b < 256) :
    verify_signature d (b64encode sigBytes) (b64encode (pubPemBytes sigId)) =
      .ok (ecdsaVerify sigId sigBytes (strEncode d)) := by
  unfold verify_signature
  rw [b64decode_b64encode _ (pubPemBytes_lt sigId), ok_bind,
    load_pem_public_key_pubPemBytes, ok_bind, b64decode_b64encode _ hsig, ok_bind]
  rfl

theorem encrypt_message_eq (m : Str) (kb : List Nat) (h32 : kb.length = 32)
    (hlt : ∀ b ∈ kb, b < 256) :
    encrypt_message m (b64encode kb) =
      .ok (urlsafe_b64encode (fernetEncrypt kb (strEncode m))) := by
  unfold encrypt_message
  rw [fernetInit_b64encode kb h32 hlt, ok_bind]
  rfl

theorem decapsulate_key_eq (kemId : Nat) (shared : List Nat)
    (hs : ∀ b ∈ shared, b < 256) :
    decapsulate_key (b64encode (privPemBytes kemId))
      (b64encode (rsaOaepEncrypt kemId shared)) = .ok (b64encode shared) := by
  unfold decapsulate_key
  rw [b64decode_b64encode _ (privPemBytes_lt kemId), ok_bind,
    load_pem_private_key_privPemBytes, ok_bind,
    b64decode_b64encode _ (rsaOaepEncrypt_lt kemId shared hs), ok_bind,
    rsaOaepDecrypt_rsaOaepEncrypt, ok_bind]
  rfl

theorem decrypt_message_eq (m : Str) (kb : List Nat) (h32 : kb.length = 32)
    (hlt : ∀ b ∈ kb, b < 256) :
    decrypt_message (urlsafe_b64encode (fernetEncrypt kb (strEncode m)))
      (b64encode kb) = .ok m := by
  unfold decrypt_message
  rw [fernetInit_b64encode kb h32 hlt, ok_bind,
    urlsafe_b64decode_urlsafe_b64encode _
      (fernetEncrypt_lt kb (strEncode m) hlt (strEncode_lt m)), ok_bind,
    fernetDecrypt_fernetEncrypt kb _ h32, ok_bind, strDecode_strEncode]
  rfl

theorem create_capsule_eq (message unlock_date : Str) (kemId sigId : Nat)
    (now : DateTime) (shared : List Nat)
    (hm : message ≠ [])
    (hd : validate_date unlock_date = true)
    (h32 : shared.length = 32) (hlt : ∀ b ∈ shared, b < 256) :
    create_capsule message unlock_date (generate_keys kemId sigId) now shared =
      .ok (createdCapsule message unlock_date kemId sigId now shared) := by
  unfold create_capsule createdCapsule
  rw [if_neg hm, if_neg (not_not_intro hd)]
  simp only [generate_keys, encapsulate_key_eq, ok_bind,
    encrypt_message_eq message shared h32 hlt, sign_data_eq, pure_except]

set_option maxHeartbeats 1000000 in
theorem decrypt_createdCapsule (message unlock_date : Str) (kemId sigId : Nat)
    (now : DateTime) (shared : List Nat) (today : Date)
    (h32 : shared.length = 32) (hlt : ∀ b ∈ shared, b < 256)
    (hu : is_unlocked unlock_date today = true) :
    decrypt_capsule (createdCapsule message unlock_date kemId sigId now shared)
      (generate_keys kemId sigId) today = .ok message := by
  unfold decrypt_capsule decrypt_capsule_with createdCapsule
  simp only [generate_keys]
  rw [if_neg (not_not_intro hu)]
  rw [verify_signature_eq _ sigId _
    (ecdsaSign_lt sigId _ (strEncode_lt _)), ok_bind, ecdsaVerify_ecdsaSign]
  rw [if_neg (not_not_intro rfl)]
  rw [decapsulate_key_eq kemId shared hlt, ok_bind,
    decrypt_message_eq message shared h32 hlt, ok_bind]
  rfl

/-! ### Delimiter-freedom lemmas -/

theorem mem_padNum (w n : Nat) (c : Char) (hc : c ∈ padNum w n) :
    ∃ m, m < 10 ∧ c = Nat.digitChar m := by
  induction w generalizing n with
  | zero => simp [padNum] at hc
  | succ k ih =>
    simp only [padNum, List.mem_append, List.mem_singleton] at hc
    rcases hc with h | rfl
    · exact ih (n / 10) h
    · exact ⟨n % 10, by omega, rfl⟩

theorem digitChar_ne_bar : ∀ m, m < 10 → Nat.digitChar m ≠ '|' := by decide

theorem bar_not_mem_padNum (w n : Nat) : '|' ∉ padNum w n := by
  intro hc
  obtain ⟨m, hm, he⟩ := mem_padNum w n '|' hc
  exact digitChar_ne_bar m hm he.symm

theorem bar_not_mem_timestamp (t : DateTime) : '|' ∉ get_current_timestamp t := by
  rw [get_current_timestamp_eq]
  intro hmem
  simp only [List.mem_append, List.mem_singleton] at hmem
  rcases hmem with ((((((((((h | h) | h) | h) | h) | h) | h) | h) | h) | h) | h) | h
  · exact bar_not_mem_padNum 4 t.year h
  · exact absurd h (by decide)
  · exact bar_not_mem_padNum 2 t.month h
  · exact absurd h (by decide)
  · exact bar_not_mem_padNum 2 t.day h
  · exact absurd h (by decide)
  · exact bar_not_mem_padNum 2 t.hour h
  · exact absurd h (by decide)
  · exact bar_not_mem_padNum 2 t.minute h
  · exact absurd h (by decide)
  · exact bar_not_mem_padNum 2 t.second h
  · by_cases hz : t.microsecond = 0
    · rw [if_pos hz] at h
      exact absurd h (List.not_mem_nil '|')
    · rw [if_neg hz] at h
      simp only [List.mem_append, List.mem_singleton] at h
      rcases h with h | h
      · exact absurd h (by decide)
      · exact bar_not_mem_padNum 6 t.microsecond h

theorem bar_not_mem_isDigit (c : Char) (h : c.isDigit = true) : c ≠ '|' := by
  intro he
  rw [he] at h
  exact absurd h (by decide)

theorem fromisoformat_no_bar (s : Str) (d : Date) (h : fromisoformat s = some d) :
    '|' ∉ s := by
  unfold fromisoformat at h
  split at h
  case h_2 => exact absurd h (by simp)
  case h_1 y1 y2 y3 y4 s1 m1 m2 s2 d1 d2 =>
    split at h
    case isFalse => exact absurd h (by simp)
    case isTrue hcond =>
      simp only [Bool.and_eq_true, beq_iff_eq] at hcond
      obtain ⟨⟨⟨⟨⟨⟨⟨⟨⟨hy1, hy2⟩, hy3⟩, hy4⟩, hs1⟩, hm1⟩, hm2⟩, hs2⟩, hd1⟩, hd2⟩ := hcond
      intro hmem
      simp only [List.mem_cons, List.not_mem_nil, or_false] at hmem
      rcases hmem with rfl | rfl | rfl | rfl | rfl | rfl | rfl | rfl | rfl | rfl
      · exact bar_not_mem_isDigit _ hy1 rfl
      · exact bar_not_mem_isDigit _ hy2 rfl
      · exact bar_not_mem_isDigit _ hy3 rfl
      · exact bar_not_mem_isDigit _ hy4 rfl
      · exact absurd hs1.symm (by decide)
      · exact bar_not_mem_isDigit _ hm1 rfl
      · exact bar_not_mem_isDigit _ hm2 rfl
      · exact absurd hs2.symm (by decide)
      · exact bar_not_mem_isDigit _ hd1 rfl
      · exact bar_not_mem_isDigit _ hd2 rfl

theorem bar_not_mem_std : '|' ∉ stdAlphabet := by decide

theorem bar_not_mem_url : '|' ∉ urlAlphabet := by decide

theorem bar_not_mem_b64encode (bs : List Nat) : '|' ∉ b64encode bs := by
  intro h
  rcases mem_encodeWith stdAlphabet bs '|' stdAlphabet_length h with hm | he
  · exact bar_not_mem_std hm
  · exact absurd he (by decide)

theorem bar_not_mem_urlsafe_b64encode (bs : List Nat) : '|' ∉ urlsafe_b64encode bs := by
  intro h
  rcases mem_encodeWith urlAlphabet bs '|' urlAlphabet_length h with hm | he
  · exact bar_not_mem_url hm
  · exact absurd he (by decide)

theorem canonicalMetadata_eq (t u c k : Str) :
    canonicalMetadata t u c k = t ++ '|' :: (u ++ '|' :: (c ++ '|' :: k)) := by
  simp [canonicalMetadata, str, List.append_assoc]

theorem append_bar_inj (u v x y : Str) (hu : '|' ∉ u) (hv : '|' ∉ v)
    (h : u ++ '|' :: x = v ++ '|' :: y) : u = v ∧ x = y := by
  induction u generalizing v with
  | nil =>
    cases v with
    | nil => simpa using h
    | cons c vs =>
      simp only [List.nil_append, List.cons_append, List.cons.injEq] at h
      exact absurd (h.1 ▸ List.mem_cons_self c vs) hv
  | cons c us ih =>
    cases v with
    | nil =>
      simp only [List.nil_append, List.cons_append, List.cons.injEq] at h
      exact absurd (h.1.symm ▸ List.mem_cons_self c us) hu
    | cons e vs =>
      simp only [List.cons_append, List.cons.injEq] at h
      obtain ⟨rfl, h2⟩ := h
      have := ih vs (fun hm => hu (List.mem_cons_of_mem _ hm))
        (fun hm => hv (List.mem_cons_of_mem _ hm)) h2
      exact ⟨by rw [this.1], this.2⟩

theorem canonicalMetadata_inj (t u c k t' u' c' k' : Str)
    (ht : '|' ∉ t) (hu : '|' ∉ u) (hc : '|' ∉ c)
    (ht' : '|' ∉ t') (hu' : '|' ∉ u') (hc' : '|' ∉ c')
    (h : canonicalMetadata t u c k = canonicalMetadata t' u' c' k') :
    t = t' ∧ u = u' ∧ c = c' ∧ k = k' := by
  rw [canonicalMetadata_eq, canonicalMetadata_eq] at h
  obtain ⟨e1, h⟩ := append_bar_inj _ _ _ _ ht ht' h
  obtain ⟨e2, h⟩ := append_bar_inj _ _ _ _ hu hu' h
  obtain ⟨e3, e4⟩ := append_bar_inj _ _ _ _ hc hc' h
  exact ⟨e1, e2, e3, e4⟩

/-! ## Claim theorems -/

/-- C6: `is_unlocked` returns true exactly when the unlock-date string parses
as a calendar date `d` (no time-of-day component) with `d <= today`; every
string that does not parse yields false (fails closed). -/
theorem claim6_is_unlocked_semantics (s : Str) (today : Date) :
    is_unlocked s today = true ↔ ∃ d, fromisoformat s = some d ∧ dateLe d today := by
  unfold is_unlocked
  cases h : fromisoformat s with
  | none => simp
  | some d => simp [decide_eq_true_eq]

/-- C10: every date string accepted by `validate_date` also parses inside
`is_unlocked` (both call `date.fromisoformat`), so the lock status of a
capsule whose unlock date passed creation-time validation is determined
purely by the `today >= unlock_date` comparison — the fail-closed parse
branch is never taken. -/
theorem claim10_validate_agrees_is_unlocked (s : Str)
    (hv : validate_date s = true) :
    ∃ d, fromisoformat s = some d ∧
      ∀ today, is_unlocked s today = decide (dateLe d today) := by
  unfold validate_date at hv
  obtain ⟨d, hd⟩ := Option.isSome_iff_exists.mp hv
  refine ⟨d, hd, fun today => ?_⟩
  unfold is_unlocked
  rw [hd]

/-- Witness for C10 at the concrete validated date string `2025-12-31`. -/
theorem claim10_witness :
    ∃ d, fromisoformat (str "2025-12-31") = some d ∧
      ∀ today, is_unlocked (str "2025-12-31") today = decide (dateLe d today) :=
  claim10_validate_agrees_is_unlocked (str "2025-12-31") (by decide)

/-- C3 counterexample: `verify_signature` does raise.  With public-key
argument `"A"` (malformed base64: one data character), `base64.b64decode`
raises `binascii.Error` before the `try` block is ever reached, so the call
does not return a boolean. -/
theorem claim3_counterexample :
    verify_signature (str "data") (str "sig") (str "A") =
      .error .binasciiError := by decide

/-- C3 amended: `verify_signature` returns a boolean (false on any
cryptographically invalid signature) whenever the public key is well-formed
base64 that parses as a public-key PEM and the signature is well-formed
base64; only those preliminary decodes can raise, because only the final
`.verify` call is wrapped in `try/except`. -/
theorem claim3_verify_signature_total (data signature_b64 sig_public_b64 : Str)
    (pem : List Nat) (kp : Nat) (sig : List Nat)
    (h1 : b64decode sig_public_b64 = .ok pem)
    (h2 : load_pem_public_key pem = .ok kp)
    (h3 : b64decode signature_b64 = .ok sig) :
    verify_signature data signature_b64 sig_public_b64 =
      .ok (ecdsaVerify kp sig (strEncode data)) := by
  unfold verify_signature
  rw [h1, ok_bind, h2, ok_bind, h3, ok_bind]
  rfl

/-- Witness for the amended C3 at concrete well-formed inputs. -/
theorem claim3_witness :
    verify_signature (str "d") (b64encode (ecdsaSign 1 (strEncode (str "d"))))
      (b64encode (pubPemBytes 1)) =
      .ok (ecdsaVerify 1 (ecdsaSign 1 (strEncode (str "d")))
        (strEncode (str "d"))) :=
  claim3_verify_signature_total (str "d") (b64encode (ecdsaSign 1 (strEncode (str "d"))))
    (b64encode (pubPemBytes 1)) (pubPemBytes 1) 1 (ecdsaSign 1 (strEncode (str "d")))
    (by decide) (by decide) (by decide)

/-- C8 (code bug): every key produced by `generate_aes_key` is rejected by
`encrypt_message`.  `Fernet.generate_key()` is already a 44-byte urlsafe
base64 string; `generate_aes_key` base64-encodes it a second time, giving a
60-character key that `Fernet(...)` decodes to 44 bytes, not 32, and so
raises `ValueError` for every message. -/
theorem claim8_generate_aes_key_rejected (secret : List Nat)
    (h32 : secret.length = 32) (m : Str) :
    encrypt_message m (generate_aes_key secret) = .error .valueError := by
  have hbytes : ∀ b ∈ fernet_generate_key secret, b < 256 := by
    intro b hb
    simp only [fernet_generate_key, List.mem_map] at hb
    obtain ⟨c, hc, rfl⟩ := hb
    exact encodeWith_toNat_lt urlAlphabet urlAlphabet_length url_toNat_lt secret c hc
  have hlen : (fernet_generate_key secret).length = 44 := by
    simp [fernet_generate_key, urlsafe_b64encode, encodeWith_length, h32]
  unfold encrypt_message generate_aes_key fernetInit
  rw [urlsafe_b64decode_urlsafe_b64encode _ hbytes]
  simp [hlen, error_bind]

/-- Witness for C8 on a concrete 32-byte random key. -/
theorem claim8_witness :
    encrypt_message (str "hi") (generate_aes_key (List.range 32)) =
      .error .valueError :=
  claim8_generate_aes_key_rejected (List.range 32) (by decide) (str "hi")

/-- C2: `decrypt_capsule`'s gates fire in order and are hard gates.  If the
capsule is still locked it fails with the locked error (carrying the unlock
date) and neither decapsulation nor decryption is invoked — the result is
the same for every decapsulate/decrypt function.  If it is unlocked but
signature verification over the metadata recomputed from the stored fields
returns false, it fails with the signature error, again for every
decapsulate/decrypt function. -/
theorem claim2_gate_order (capsule : Capsule) (keys : Keys) (today : Date) :
    (is_unlocked capsule.unlock_date today = false →
      ∀ decap decr, decrypt_capsule_with decap decr capsule keys today =
        .error (.lockedUntil capsule.unlock_date)) ∧
    (is_unlocked capsule.unlock_date today = true →
      verify_signature (canonicalMetadata capsule.timestamp capsule.unlock_date
        capsule.ciphertext capsule.kem_ct) capsule.signature keys.sig_public =
        .ok false →
      ∀ decap decr, decrypt_capsule_with decap decr capsule keys today =
        .error .signatureFailed) := by
  constructor
  · intro h decap decr
    unfold decrypt_capsule_with
    rw [if_pos (by simp [h])]
    rfl
  · intro h hv decap decr
    unfold decrypt_capsule_with
    rw [if_neg (not_not_intro h)]
    simp only [pure_except, ok_bind, hv]
    rw [if_pos (by simp)]
    rfl

/-- Witness for C2: a concrete locked capsule fails with the locked error,
and a concrete unlocked capsule carrying a signature over different data
fails with the signature error, both under the source's actual decapsulate
and decrypt functions. -/
theorem claim2_witness :
    decrypt_capsule_with decapsulate_key decrypt_message
        ⟨str "t", str "2999-01-01", str "c", str "k", str "s"⟩
        (generate_keys 0 1) ⟨2025, 6, 1⟩ =
      .error (.lockedUntil (str "2999-01-01")) ∧
    decrypt_capsule_with decapsulate_key decrypt_message
        ⟨str "t", str "2000-01-01", str "c", str "k",
          b64encode (ecdsaSign 1 (strEncode (str "x")))⟩
        (generate_keys 0 1) ⟨2025, 6, 1⟩ =
      .error .signatureFailed := by
  constructor
  · exact (claim2_gate_order _ _ _).1 (by decide) decapsulate_key decrypt_message
  · exact (claim2_gate_order _ _ _).2 (by decide) (by decide) decapsulate_key
      decrypt_message

/-- C7: `verify_capsule` is exactly signature verification over the metadata
recomputed from the capsule's stored fields — it takes no clock input, never
evaluates the time-lock predicate and never decapsulates or decrypts — and
every honestly created capsule verifies as true with no constraint relating
its unlock date to any current date (so a still-locked capsule with a valid
signature verifies as true). -/
theorem claim7_verify_ignores_lock :
    (∀ capsule keys, verify_capsule capsule keys =
      verify_signature (canonicalMetadata capsule.timestamp capsule.unlock_date
        capsule.ciphertext capsule.kem_ct) capsule.signature keys.sig_public) ∧
    (∀ (message unlock_date : Str) (kemId sigId : Nat) (now : DateTime)
        (shared : List Nat) (caps : Capsule),
      message ≠ [] → validate_date unlock_date = true → shared.length = 32 →
      (∀ b ∈ shared, b < 256) →
      create_capsule message unlock_date (generate_keys kemId sigId) now shared =
        .ok caps →
      verify_capsule caps (generate_keys kemId sigId) = .ok true) := by
  constructor
  · intro capsule keys
    rfl
  · intro message unlock_date kemId sigId now shared caps hm hd h32 hlt hc
    rw [create_capsule_eq message unlock_date kemId sigId now shared hm hd h32 hlt]
      at hc
    injection hc with hc
    subst hc
    unfold verify_capsule createdCapsule
    simp only [generate_keys]
    rw [verify_signature_eq _ sigId _ (ecdsaSign_lt sigId _ (strEncode_lt _)),
      ecdsaVerify_ecdsaSign]

/-- Witness for C7: a capsule sealed with the far-future unlock date
`2999-01-01` — still locked on 2025-06-01 — verifies as true. -/
theorem claim7_witness :
    verify_capsule
        (createdCapsule (str "hello future") (str "2999-01-01") 0 1
          ⟨2025, 6, 1, 12, 0, 0, 0⟩ (List.range 32))
        (generate_keys 0 1) = .ok true ∧
    is_unlocked (str "2999-01-01") ⟨2025, 6, 1⟩ = false := by
  constructor
  · exact claim7_verify_ignores_lock.2 (str "hello future") (str "2999-01-01")
      0 1 ⟨2025, 6, 1, 12, 0, 0, 0⟩ (List.range 32) _ (by decide) (by decide)
      (by decide) (by decide)
      (create_capsule_eq _ _ _ _ _ _ (by decide) (by decide) (by decide) (by decide))
  · decide

set_option maxHeartbeats 1600000 in
/-- C4: the canonical metadata string is exactly the four fields
`timestamp`, `unlock_date`, `ciphertext`, `kem_ct` joined with the single
delimiter `|` in that fixed order, and for every capsule produced by the
create operation the stored signature is a signature over exactly the string
recomputed from the capsule's stored fields — byte for byte the string
signed at creation. -/
theorem claim4_canonical_metadata :
    (∀ t u c k : Str, canonicalMetadata t u c k =
      List.intercalate (str "|") [t, u, c, k]) ∧
    (∀ (message unlock_date : Str) (kemId sigId : Nat) (now : DateTime)
        (shared : List Nat) (caps : Capsule),
      message ≠ [] → validate_date unlock_date = true → shared.length = 32 →
      (∀ b ∈ shared, b < 256) →
      create_capsule message unlock_date (generate_keys kemId sigId) now shared =
        .ok caps →
      b64decode caps.signature =
        .ok (ecdsaSign sigId (strEncode (canonicalMetadata caps.timestamp
          caps.unlock_date caps.ciphertext caps.kem_ct)))) := by
  constructor
  · intro t u c k
    simp [canonicalMetadata, List.intercalate, List.intersperse,
      List.append_assoc]
  · intro message unlock_date kemId sigId now shared caps hm hd h32 hlt hc
    rw [create_capsule_eq message unlock_date kemId sigId now shared hm hd h32 hlt]
      at hc
    injection hc with hc
    subst hc
    exact b64decode_b64encode _ (ecdsaSign_lt sigId _ (strEncode_lt _))

/-- Witness for C4 at a concrete creation. -/
theorem claim4_witness :
    canonicalMetadata (str "t") (str "u") (str "c") (str "k") =
      List.intercalate (str "|") [str "t", str "u", str "c", str "k"] ∧
    b64decode (createdCapsule (str "hi") (str "2030-01-01") 0 1
        ⟨2025, 6, 1, 12, 0, 0, 0⟩ (List.range 32)).signature =
      .ok (ecdsaSign 1 (strEncode (canonicalMetadata
        (createdCapsule (str "hi") (str "2030-01-01") 0 1
          ⟨2025, 6, 1, 12, 0, 0, 0⟩ (List.range 32)).timestamp
        (createdCapsule (str "hi") (str "2030-01-01") 0 1
          ⟨2025, 6, 1, 12, 0, 0, 0⟩ (List.range 32)).unlock_date
        (createdCapsule (str "hi") (str "2030-01-01") 0 1
          ⟨2025, 6, 1, 12, 0, 0, 0⟩ (List.range 32)).ciphertext
        (createdCapsule (str "hi") (str "2030-01-01") 0 1
          ⟨2025, 6, 1, 12, 0, 0, 0⟩ (List.range 32)).kem_ct))) := by
  constructor
  · exact claim4_canonical_metadata.1 (str "t") (str "u") (str "c") (str "k")
  · exact claim4_canonical_metadata.2 (str "hi") (str "2030-01-01") 0 1
      ⟨2025, 6, 1, 12, 0, 0, 0⟩ (List.range 32) _ (by decide) (by decide)
      (by decide) (by decide)
      (create_capsule_eq _ _ _ _ _ _ (by decide) (by decide) (by decide) (by decide))

set_option maxHeartbeats 1600000 in
/-- C5: no field of a created capsule contains the delimiter `|` — the
timestamp and validated unlock date consist of digits and separators, and
ciphertext and kem_ct are base64 text — and consequently the delimiter-joined
canonical metadata string determines the four fields unambiguously. -/
theorem claim5_fields_bar_free (message unlock_date : Str) (kemId sigId : Nat)
    (now : DateTime) (shared : List Nat) (caps : Capsule)
    (hm : message ≠ []) (hd : validate_date unlock_date = true)
    (h32 : shared.length = 32) (hlt : ∀ b ∈ shared, b < 256)
    (hc : create_capsule message unlock_date (generate_keys kemId sigId) now
      shared = .ok caps) :
    ('|' ∉ caps.timestamp ∧ '|' ∉ caps.unlock_date ∧ '|' ∉ caps.ciphertext ∧
      '|' ∉ caps.kem_ct) ∧
    (∀ t' u' c' k' : Str, '|' ∉ t' → '|' ∉ u' → '|' ∉ c' →
      canonicalMetadata caps.timestamp caps.unlock_date caps.ciphertext
        caps.kem_ct = canonicalMetadata t' u' c' k' →
      caps.timestamp = t' ∧ caps.unlock_date = u' ∧ caps.ciphertext = c' ∧
        caps.kem_ct = k') := by
  rw [create_capsule_eq message unlock_date kemId sigId now shared hm hd h32 hlt]
    at hc
  injection hc with hc
  subst hc
  unfold validate_date at hd
  obtain ⟨d, hud⟩ := Option.isSome_iff_exists.mp hd
  have hts : '|' ∉ (createdCapsule message unlock_date kemId sigId now
      shared).timestamp := bar_not_mem_timestamp now
  have hu : '|' ∉ (createdCapsule message unlock_date kemId sigId now
      shared).unlock_date := fromisoformat_no_bar unlock_date d hud
  have hct : '|' ∉ (createdCapsule message unlock_date kemId sigId now
      shared).ciphertext := bar_not_mem_urlsafe_b64encode _
  have hk : '|' ∉ (createdCapsule message unlock_date kemId sigId now
      shared).kem_ct := bar_not_mem_b64encode _
  refine ⟨⟨hts, hu, hct, hk⟩, ?_⟩
  intro t' u' c' k' ht' hu' hc' heq
  exact canonicalMetadata_inj _ _ _ _ _ _ _ _ hts hu hct ht' hu' hc' heq

/-- Witness for C5 at a concrete creation. -/
theorem claim5_witness :
    '|' ∉ (createdCapsule (str "hi") (str "2030-01-01") 0 1
      ⟨2025, 6, 1, 12, 0, 0, 0⟩ (List.range 32)).timestamp ∧
    '|' ∉ (createdCapsule (str "hi") (str "2030-01-01") 0 1
      ⟨2025, 6, 1, 12, 0, 0, 0⟩ (List.range 32)).unlock_date ∧
    '|' ∉ (createdCapsule (str "hi") (str "2030-01-01") 0 1
      ⟨2025, 6, 1, 12, 0, 0, 0⟩ (List.range 32)).ciphertext ∧
    '|' ∉ (createdCapsule (str "hi") (str "2030-01-01") 0 1
      ⟨2025, 6, 1, 12, 0, 0, 0⟩ (List.range 32)).kem_ct :=
  (claim5_fields_bar_free (str "hi") (str "2030-01-01") 0 1
    ⟨2025, 6, 1, 12, 0, 0, 0⟩ (List.range 32) _ (by decide) (by decide)
    (by decide) (by decide)
    (create_capsule_eq _ _ _ _ _ _ (by decide) (by decide) (by decide)
      (by decide))).1

set_option maxHeartbeats 1600000 in
/-- C1: the round trip.  For every non-empty message, every key bundle
produced by `generate_keys`, and every valid unlock date that is not in the
future (it parses and is at or before today), creating a capsule and then
decrypting it with the same bundle returns exactly the original message:
encapsulate/encrypt at creation, decapsulate/decrypt at decryption. -/
theorem claim1_round_trip (message unlock_date : Str) (keys : Keys)
    (kemId sigId : Nat) (now : DateTime) (shared : List Nat) (today d : Date)
    (hkeys : keys = generate_keys kemId sigId)
    (hm : message ≠ [])
    (hd : fromisoformat unlock_date = some d)
    (hpast : dateLe d today)
    (h32 : shared.length = 32) (hlt : ∀ b ∈ shared, b < 256) :
    (create_capsule message unlock_date keys now shared >>= fun capsule =>
      decrypt_capsule capsule keys today) = .ok message := by
  subst hkeys
  have hval : validate_date unlock_date = true := by
    simp [validate_date, hd]
  have hu : is_unlocked unlock_date today = true := by
    simp [is_unlocked, hd, hpast]
  rw [create_capsule_eq message unlock_date kemId sigId now shared hm hval h32 hlt,
    ok_bind]
  exact decrypt_createdCapsule message unlock_date kemId sigId now shared today
    h32 hlt hu

set_option maxHeartbeats 1600000 in
/-- Witness for C1: the spec's concrete scenario — message `"hello future"`
sealed with unlock date `"2000-01-01"` (already past) decrypts back to
`"hello future"`. -/
theorem claim1_witness :
    (create_capsule (str "hello future") (str "2000-01-01") (generate_keys 0 1)
        ⟨2025, 6, 1, 12, 0, 0, 0⟩ (List.range 32) >>= fun capsule =>
      decrypt_capsule capsule (generate_keys 0 1) ⟨2025, 6, 1⟩) =
      .ok (str "hello future") :=
  claim1_round_trip (str "hello future") (str "2000-01-01") (generate_keys 0 1)
    0 1 ⟨2025, 6, 1, 12, 0, 0, 0⟩ (List.range 32) ⟨2025, 6, 1⟩ ⟨2000, 1, 1⟩
    rfl (by decide) (by decide) (by decide) (by decide) (by decide)

/-- C9: `list_capsules` returns the stored capsule stems in ascending
lexicographic order (it is a sorted permutation of the stripped
`capsule_*.json` directory entries), and on valid datetimes at least one
clock tick apart the `get_current_timestamp` encoding makes lexicographic
order coincide exactly with chronological order. -/
theorem claim9_listing_order :
    (∀ dirListing : List Str,
      (list_capsules dirListing).Pairwise pyLe ∧
      (list_capsules dirListing).Perm
        ((dirListing.filter (fun f => startswith (str "capsule_") f &&
          endswith (str ".json") f)).map capsuleStem)) ∧
    (∀ a b : DateTime, a.Valid → b.Valid →
      (strLt (get_current_timestamp a) (get_current_timestamp b) = true ↔
        dtLt a b)) := by
  constructor
  · intro dirListing
    exact ⟨pySorted_pairwise _, pySorted_perm _⟩
  · exact strLt_timestamp_iff

/-- Witness for C9: a concrete directory listing comes back sorted, and two
concrete timestamps one second apart compare lexicographically exactly as
they compare chronologically. -/
theorem claim9_witness :
    (list_capsules [str "capsule_b.json", str "capsule_a.json",
      str "notes.txt"]).Pairwise pyLe ∧
    (strLt (get_current_timestamp ⟨2025, 6, 1, 12, 0, 0, 0⟩)
      (get_current_timestamp ⟨2025, 6, 1, 12, 0, 1, 0⟩) = true ↔
      dtLt ⟨2025, 6, 1, 12, 0, 0, 0⟩ ⟨2025, 6, 1, 12, 0, 1, 0⟩) := by
  constructor
  · exact (claim9_listing_order.1 _).1
  · exact claim9_listing_order.2 _ _ (by decide) (by decide)
